import Mathlib

/-!
Verification of the `interrogate` docstring-coverage engine.

This file gives a shallow embedding of the coverage core of the
repository — `src/interrogate/visit.py` (the AST visitor building
`CovNode` records) and `src/interrogate/coverage.py` (the filtering
pipeline, the per-file and per-run tallies, and the fail-under
verdict) — and proves properties of that embedding.

Modelling conventions:
* Python `str` is modelled as `List Char` (`PyStr`); `str.startswith` /
  `str.endswith` become `List.isPrefixOf` / `List.isSuffixOf`.
* Python AST nodes are the mutual inductives `PyAst` / `PyAstList`;
  only the node kinds the visitor inspects are distinguished, all other
  statements are `otherStmt` (the visitor's `generic_visit` just
  recurses into their children).
* Compiled regular expressions in the configuration are modelled as
  literal (metacharacter-free) patterns; `re.Pattern.match`, which
  anchors at the start of the string, is then exactly a prefix test.
* The visitor's node list is a `List CovNode`; the Python object
  identity of a `CovNode` is modelled by its index in that list
  (each node is appended exactly once), and the `parent` object
  reference becomes an optional index.
* Python `float` arithmetic on percentages is modelled by exact
  rational arithmetic (`ℚ`), and Python's `round` (banker's rounding)
  by `roundHalfEven`.
-/

/-- Python strings, modelled as their sequence of characters. -/
abbrev PyStr := List Char

/-- Literal notation helper: the `PyStr` of a Lean string literal. -/
def pys (s : String) : PyStr := s.data

/-- Python `s.startswith(pre)`. -/
def pyStartsWith (s pre : PyStr) : Bool := pre.isPrefixOf s

/-- Python `s.endswith(suf)`. -/
def pyEndsWith (s suf : PyStr) : Bool := suf.isSuffixOf s

/-- Python `s.strip()`: remove leading and trailing whitespace. -/
def pyStrip (s : PyStr) : PyStr :=
  ((s.dropWhile Char.isWhitespace).reverse.dropWhile Char.isWhitespace).reverse

/-- Python `os.path.basename`: the part of the path after the last slash. -/
def pyBasename (p : PyStr) : PyStr :=
  p.foldl (fun acc c => if c = '/' then [] else acc ++ [c]) []

/-- `re.Pattern.match(name)` for a literal pattern: anchored at the start,
so it succeeds iff the pattern is a prefix of the name. -/
def reMatch (pat name : PyStr) : Bool := pat.isPrefixOf name

/-- `decimal.Decimal(str(x))` for the configured threshold: a decimal
number `mant / 10 ^ exp`, keeping the number of decimal digits `exp`
that the threshold's decimal rendering has (`Decimal.as_tuple().exponent`
is `-exp`). -/
structure PyDecimal where
  mant : Int
  exp : Nat
deriving DecidableEq, Repr

/-- Rational value of a decimal threshold. -/
def PyDecimal.toRat (d : PyDecimal) : ℚ := (d.mant : ℚ) / (10 : ℚ) ^ d.exp

/-- Round a rational to the nearest integer, ties to even — the rounding
Python's builtin `round` performs. -/
def roundHalfEven (q : ℚ) : ℤ :=
  let f := ⌊q⌋
  let r := q - (f : ℚ)
  if r < 1 / 2 then f
  else if 1 / 2 < r then f + 1
  else if f % 2 = 0 then f else f + 1

/-- Python `round(q, ndigits)`: round to `ndigits` decimal places,
ties to even. -/
def pyRound (q : ℚ) (ndigits : Nat) : ℚ :=
  ((roundHalfEven (q * (10 : ℚ) ^ ndigits) : ℚ)) / (10 : ℚ) ^ ndigits

/-- `config.InterrogateConfig` (src/interrogate/config.py), restricted to
the fields the coverage core reads.  `fail_under` is carried in the
decimal form produced by `decimal.Decimal(str(fail_under))`. -/
structure InterrogateConfig where
  docstring_style : String := "sphinx"
  fail_under : PyDecimal := ⟨800, 1⟩
  ignore_regex : List PyStr := []
  ignore_magic : Bool := false
  ignore_module : Bool := false
  ignore_private : Bool := false
  ignore_semiprivate : Bool := false
  ignore_init_method : Bool := false
  ignore_nested_classes : Bool := false
  ignore_nested_functions : Bool := false
  ignore_property_setters : Bool := false
  ignore_property_decorators : Bool := false
  ignore_overloaded_functions : Bool := false
  include_regex : List PyStr := []
deriving Repr

/-- A decorator expression, as far as the visitor's shape checks
(`hasattr(dec, "id")` / `hasattr(dec, "attr")`) can see it: a bare name
(`ast.Name`, has `.id`), an attribute access (`ast.Attribute`, has
`.attr`, and `.value.id` when the object is itself a name), or anything
else. -/
inductive Deco where
  | bareName (id : PyStr)
  | attrAccess (valueId : Option PyStr) (attr : PyStr)
  | otherDeco
deriving DecidableEq, Repr

mutual
/-- A Python AST node, restricted to what the visitor distinguishes:
`ast.Module`, `ast.ClassDef`, `ast.FunctionDef`, `ast.AsyncFunctionDef`,
and any other statement (traversed by `generic_visit` only).  `doc` is
`ast.get_docstring(node)`. -/
inductive PyAst where
  | module (doc : Option PyStr) (body : PyAstList)
  | classDef (nm : PyStr) (doc : Option PyStr) (decorator_list : List Deco)
      (lineno : Nat) (body : PyAstList)
  | functionDef (nm : PyStr) (doc : Option PyStr) (decorator_list : List Deco)
      (lineno : Nat) (body : PyAstList)
  | asyncFunctionDef (nm : PyStr) (doc : Option PyStr) (decorator_list : List Deco)
      (lineno : Nat) (body : PyAstList)
  | otherStmt (children : PyAstList)
deriving DecidableEq

/-- A list of sibling AST nodes (a `body`), as a mutual inductive so the
visitor can recurse structurally. -/
inductive PyAstList where
  | nil
  | cons (hd : PyAst) (tl : PyAstList)
deriving DecidableEq
end

/-- Append of sibling lists. -/
def PyAstList.append : PyAstList → PyAstList → PyAstList
  | .nil, l => l
  | .cons a t, l => .cons a (t.append l)

/-- `visit.CovNode` (src/interrogate/visit.py): the coverage record for
one documentable AST node.  `parent` is the index of the parent's record
in the visitor's node list (Python holds an object reference; each
object is appended to the list exactly once, so the index is a faithful
identity). -/
structure CovNode where
  name : PyStr
  path : PyStr
  level : Nat
  lineno : Option Nat
  covered : Bool
  node_type : String
  is_nested_func : Bool
  is_nested_cls : Bool
  parent : Option Nat
deriving DecidableEq, Repr

/-- `CoverageVisitor._has_doc`: the node has a docstring and it is
non-empty after stripping whitespace. -/
def hasDoc (doc : Option PyStr) : Bool :=
  match doc with
  | none => false
  | some s => !(pyStrip s).isEmpty

/-- `CoverageVisitor._is_nested_func`: is the node a function nested in
another function?  Only plain `FunctionDef` parents and children count. -/
def isNestedFunc (parent : Option CovNode) (node_type : String) : Bool :=
  match parent with
  | none => false
  | some p => p.node_type == "FunctionDef" && node_type == "FunctionDef"

/-- `CoverageVisitor._is_nested_cls`: is the node a class nested in a
class or (plain) function? -/
def isNestedCls (parent : Option CovNode) (node_type : String) : Bool :=
  match parent with
  | none => false
  | some p =>
      (p.node_type == "ClassDef" || p.node_type == "FunctionDef")
        && node_type == "ClassDef"

/-- `CoverageVisitor._is_private`: name starts with `__` and does not end
with `__`. -/
def isPrivate (name : PyStr) : Bool :=
  if pyEndsWith name (pys "__") then false
  else if !pyStartsWith name (pys "__") then false
  else true

/-- `CoverageVisitor._is_semiprivate`: name starts with `_` but not `__`,
and does not end with `__`. -/
def isSemiprivate (name : PyStr) : Bool :=
  if pyEndsWith name (pys "__") then false
  else if pyStartsWith name (pys "__") then false
  else if !pyStartsWith name (pys "_") then false
  else true

/-- `CoverageVisitor._is_ignored_common`: visibility toggles and the
ignore-regex list, shared by class and function candidates. -/
def isIgnoredCommon (cfg : InterrogateConfig) (name : PyStr) : Bool :=
  if cfg.ignore_private && isPrivate name then true
  else if cfg.ignore_semiprivate && isSemiprivate name then true
  else cfg.ignore_regex.any (fun pat => reMatch pat name)

/-- `CoverageVisitor._has_property_decorators`. -/
def hasPropertyDecorators (decs : List Deco) : Bool :=
  decs.any fun d =>
    match d with
    | .bareName i => i = pys "property"
    | .attrAccess _ a => a = pys "setter" || a = pys "deleter"
    | .otherDeco => false

/-- `CoverageVisitor._has_setters`. -/
def hasSetters (decs : List Deco) : Bool :=
  decs.any fun d =>
    match d with
    | .attrAccess _ a => a = pys "setter"
    | _ => false

/-- `CoverageVisitor._has_overload_decorator`. -/
def hasOverloadDecorator (decs : List Deco) : Bool :=
  decs.any fun d =>
    match d with
    | .attrAccess (some v) a => v = pys "typing" && a = pys "overload"
    | .bareName i => i = pys "overload"
    | _ => false

/-- `CoverageVisitor._is_func_ignored`. -/
def isFuncIgnored (cfg : InterrogateConfig) (name : PyStr) (decs : List Deco) : Bool :=
  let is_init := name = pys "__init__"
  let is_magic :=
    pyStartsWith name (pys "__") && pyEndsWith name (pys "__")
      && !(name = pys "__init__")
  if cfg.ignore_init_method && is_init then true
  else if cfg.ignore_magic && is_magic then true
  else if cfg.ignore_property_decorators && hasPropertyDecorators decs then true
  else if cfg.ignore_property_setters && hasSetters decs then true
  else if cfg.ignore_overloaded_functions && hasOverloadDecorator decs then true
  else isIgnoredCommon cfg name

/-- `CoverageVisitor._is_class_ignored`. -/
def isClassIgnored (cfg : InterrogateConfig) (name : PyStr) : Bool :=
  isIgnoredCommon cfg name

/-- The visitor's mutable state: the stack of ancestor indices (head is
the top, `self.stack[-1]`) and the accumulated node list. -/
structure VisitState where
  stack : List Nat
  nodes : List CovNode
deriving DecidableEq, Repr

/-- The entry half of `CoverageVisitor._visit_helper`: build the
`CovNode` for the current AST node (name, path, level, docstring flag,
nesting flags, parent reference), append it to the node list and push it
on the stack.  The caller pops the stack after visiting the children. -/
def enterNode (st : VisitState) (node_name : PyStr) (doc : Option PyStr)
    (lineno : Option Nat) (node_type : String) : VisitState :=
  let parentIdx := st.stack.head?
  let parentNode := parentIdx.bind fun p => st.nodes[p]?
  let path :=
    match parentNode with
    | none => node_name
    | some pn =>
        if pyEndsWith pn.path (pys ".py") then pn.path ++ ':' :: node_name
        else pn.path ++ '.' :: node_name
  let cov : CovNode :=
    { name := node_name
      path := path
      covered := hasDoc doc
      level := st.stack.length
      node_type := node_type
      lineno := lineno
      is_nested_func := isNestedFunc parentNode node_type
      is_nested_cls := isNestedCls parentNode node_type
      parent := parentIdx }
  ⟨st.nodes.length :: st.stack, st.nodes ++ [cov]⟩

mutual
/-- Dispatch of `CoverageVisitor.visit` on one AST node: `visit_Module`
always records; `visit_ClassDef` / `visit_FunctionDef` /
`visit_AsyncFunctionDef` record unless the node is ignored, in which
case the whole subtree is skipped; any other statement is traversed by
`generic_visit` without recording.  Recording wraps the children's
traversal between the stack push of `_visit_helper` and its final pop. -/
def visitNode (cfg : InterrogateConfig) (fname : PyStr) (st : VisitState) :
    PyAst → VisitState
  | .module doc body =>
      let st1 := enterNode st (pyBasename fname) doc none "Module"
      let st2 := visitList cfg fname st1 body
      ⟨st2.stack.tail, st2.nodes⟩
  | .classDef nm doc _decs ln body =>
      if isClassIgnored cfg nm then st
      else
        let st1 := enterNode st nm doc (some ln) "ClassDef"
        let st2 := visitList cfg fname st1 body
        ⟨st2.stack.tail, st2.nodes⟩
  | .functionDef nm doc decs ln body =>
      if isFuncIgnored cfg nm decs then st
      else
        let st1 := enterNode st nm doc (some ln) "FunctionDef"
        let st2 := visitList cfg fname st1 body
        ⟨st2.stack.tail, st2.nodes⟩
  | .asyncFunctionDef nm doc decs ln body =>
      if isFuncIgnored cfg nm decs then st
      else
        let st1 := enterNode st nm doc (some ln) "AsyncFunctionDef"
        let st2 := visitList cfg fname st1 body
        ⟨st2.stack.tail, st2.nodes⟩
  | .otherStmt children => visitList cfg fname st children

/-- Traverse a list of sibling AST nodes in order. -/
def visitList (cfg : InterrogateConfig) (fname : PyStr) (st : VisitState) :
    PyAstList → VisitState
  | .nil => st
  | .cons a l => visitList cfg fname (visitNode cfg fname st a) l
end

/-- Run the visitor on a parsed file: `visitor.visit(parsed_tree)`
starting from an empty stack and node list. -/
def visitTree (cfg : InterrogateConfig) (fname : PyStr) (tree : PyAst) : VisitState :=
  visitNode cfg fname ⟨[], []⟩ tree

/-- Is the pool entry at index `i` the Module node? -/
def isModuleIdx (pool : List CovNode) (i : Nat) : Bool :=
  match pool[i]? with
  | some n => n.node_type == "Module"
  | none => false

/-- Number of configured include patterns matching the node's bare name
(the inner `for regexp in self.config.include_regex` loop appends the
node once per matching pattern). -/
def matchCount (cfg : InterrogateConfig) (pool : List CovNode) (i : Nat) : Nat :=
  match pool[i]? with
  | some n => (cfg.include_regex.filter fun pat => reMatch pat n.name).length
  | none => 0

/-- The main loop of `InterrogateCoverage._filter_nodes` (lines 204-213):
remember the (last) Module node seen, and append every non-module node
once per include pattern its name matches.  Returns the module reference
and the filtered list. -/
def includeLoop (cfg : InterrogateConfig) (pool : List CovNode) :
    List Nat → Option Nat × List Nat
  | [] => (none, [])
  | i :: rest =>
      let mf := includeLoop cfg pool rest
      if isModuleIdx pool i then (mf.1 <|> some i, mf.2)
      else (mf.1, List.replicate (matchCount cfg pool i) i ++ mf.2)

/-- The include/whitelist part of `InterrogateCoverage._filter_nodes`
(lines 198-216): a no-op when no include patterns are configured;
otherwise keep matching non-module nodes and re-prepend the Module node
iff the filtered list is non-empty. -/
def includeFilterStage (cfg : InterrogateConfig) (pool : List CovNode)
    (nodes : List Nat) : List Nat :=
  if cfg.include_regex.isEmpty then nodes
  else
    let mf := includeLoop cfg pool nodes
    match mf.1 with
    | some mi => if mf.2.isEmpty then mf.2 else mi :: mf.2
    | none => mf.2

/-- `InterrogateCoverage._filter_nodes` (lines 192-216): drop everything
when the file produced only its Module node and `ignore_module` is set;
otherwise apply the include/whitelist filtering. -/
def filterNodes (cfg : InterrogateConfig) (pool : List CovNode)
    (nodes : List Nat) : List Nat :=
  if nodes.length = 1 && cfg.ignore_module then []
  else includeFilterStage cfg pool nodes

/-- `is_nested_func` of the pool entry at `i`. -/
def isNestedFuncIdx (pool : List CovNode) (i : Nat) : Bool :=
  match pool[i]? with
  | some n => n.is_nested_func
  | none => false

/-- `is_nested_cls` of the pool entry at `i`. -/
def isNestedClsIdx (pool : List CovNode) (i : Nat) : Bool :=
  match pool[i]? with
  | some n => n.is_nested_cls
  | none => false

/-- `parent` of the pool entry at `i`. -/
def parentIdx (pool : List CovNode) (i : Nat) : Option Nat :=
  match pool[i]? with
  | some n => n.parent
  | none => none

/-- `InterrogateCoverage._filter_inner_nested`: drop children of nested
classes, then the nested classes themselves (`n.parent in nested_cls`
compares object identity, i.e. pool indices). -/
def filterInnerNested (pool : List CovNode) (nodes : List Nat) : List Nat :=
  let nested_cls := nodes.filter fun i => isNestedClsIdx pool i
  let inner_nested_nodes := nodes.filter fun i =>
    match parentIdx pool i with
    | some p => nested_cls.contains p
    | none => false
  let filtered_nodes := nodes.filter fun i => !inner_nested_nodes.contains i
  filtered_nodes.filter fun i => !nested_cls.contains i

/-- One iteration of the loop in `InterrogateCoverage._set_google_style`:
for a `FunctionDef` named `__init__`, copy a present docstring flag
between the node and its parent (whichever of the two lacks one).  The
`parent = none` case cannot occur for a `FunctionDef` produced by the
visitor (the Module node is always beneath it on the stack). -/
def googleStep (p : List CovNode) (j : Nat) : List CovNode :=
  match p[j]? with
  | none => p
  | some nd =>
      if nd.node_type == "FunctionDef" && nd.name = pys "__init__" then
        match nd.parent with
        | none => p
        | some pi =>
            match p[pi]? with
            | none => p
            | some pnd =>
                if !nd.covered && pnd.covered then
                  p.set j { nd with covered := true }
                else if nd.covered && !pnd.covered then
                  p.set pi { pnd with covered := true }
                else p
      else p

/-- `InterrogateCoverage._set_google_style`: apply `googleStep` to every
node of the filtered list, in order, mutating the pool of `CovNode`
objects. -/
def setGoogleStyle (pool : List CovNode) (order : List Nat) : List CovNode :=
  order.foldl googleStep pool

/-- `coverage.BaseInterrogateResult`: the tally shared by per-file and
per-run results. -/
structure BaseInterrogateResult where
  total : Nat := 0
  covered : Nat := 0
  missing : Nat := 0
deriving DecidableEq, Repr

/-- `BaseInterrogateResult.perc_covered`: percentage covered, with a
total of 0 reporting 100%. -/
def BaseInterrogateResult.perc_covered (r : BaseInterrogateResult) : ℚ :=
  if r.total = 0 then (100 : ℚ)
  else ((r.covered : ℚ) / (r.total : ℚ)) * 100

/-- `coverage.InterrogateFileResult`: results for one file; `nodes` is
the filtered node list (the `CovNode` objects, after any Google-style
flag merging). -/
structure InterrogateFileResult extends BaseInterrogateResult where
  filename : PyStr := []
  ignore_module : Bool := false
  nodes : List CovNode := []
deriving DecidableEq, Repr

/-- `InterrogateFileResult.combine`: tally the visited nodes, skipping
the Module node when `ignore_module` is set. -/
def InterrogateFileResult.combine (r : InterrogateFileResult) : InterrogateFileResult :=
  let tc := r.nodes.foldl
    (fun (tc : Nat × Nat) n =>
      if n.node_type == "Module" && r.ignore_module then tc
      else (tc.1 + 1, tc.2 + if n.covered then 1 else 0))
    (0, 0)
  { r with total := tc.1, covered := tc.2, missing := tc.1 - tc.2 }

/-- `coverage.InterrogateResults`: results for the whole run. -/
structure InterrogateResults extends BaseInterrogateResult where
  ret_code : Nat := 0
  file_results : List InterrogateFileResult := []
deriving DecidableEq, Repr

/-- `InterrogateResults.combine`: sum the per-file tallies. -/
def InterrogateResults.combine (r : InterrogateResults) : InterrogateResults :=
  r.file_results.foldl
    (fun acc fr =>
      { acc with
          covered := acc.covered + fr.covered
          missing := acc.missing + fr.missing
          total := acc.total + fr.total })
    r

/-- `InterrogateCoverage._get_file_coverage` minus file IO and parsing:
visit the tree, filter the node list, apply the nested-function /
nested-class suppressions and the Google-style merge, and tally.
Returns `none` when the filtered list is empty (the file is omitted). -/
def getFileCoverage (cfg : InterrogateConfig) (fname : PyStr) (tree : PyAst) :
    Option InterrogateFileResult :=
  let pool0 := (visitTree cfg fname tree).nodes
  let filtered0 := filterNodes cfg pool0 (List.range pool0.length)
  if filtered0.length = 0 then none
  else
    let filtered1 :=
      if cfg.ignore_nested_functions then
        filtered0.filter fun i => !isNestedFuncIdx pool0 i
      else filtered0
    let filtered2 :=
      if cfg.ignore_nested_classes then filterInnerNested pool0 filtered1
      else filtered1
    let pool1 :=
      if cfg.docstring_style == "google" then setGoogleStyle pool0 filtered2
      else pool0
    some (InterrogateFileResult.combine
      { filename := fname
        ignore_module := cfg.ignore_module
        nodes := filtered2.filterMap fun i => pool1[i]? })

/-- The tail of `InterrogateCoverage._get_coverage` (lines 279-298):
combine the per-file results and decide the return code by comparing
`fail_under` against the percentage rounded to `fail_under`'s own
number of decimal digits. -/
def getCoverageResults (cfg : InterrogateConfig)
    (file_results : List InterrogateFileResult) : InterrogateResults :=
  if cfg.fail_under.toRat >
      pyRound
        (InterrogateResults.combine
          { file_results := file_results }).toBaseInterrogateResult.perc_covered
        cfg.fail_under.exp then
    { InterrogateResults.combine { file_results := file_results } with ret_code := 1 }
  else InterrogateResults.combine { file_results := file_results }

/-- `InterrogateCoverage._get_coverage` over already-parsed trees:
per-file coverage (files with an empty filtered list are omitted from
`file_results`), then the run-level combination and verdict. -/
def getCoverage (cfg : InterrogateConfig) (files : List (PyStr × PyAst)) :
    InterrogateResults :=
  getCoverageResults cfg (files.filterMap fun ft => getFileCoverage cfg ft.1 ft.2)

/-- `InterrogateCoverage.VALID_EXT`: extensions accepted for single-file
arguments (`get_filenames_from_paths`, lines 162-173). -/
def validExt : List PyStr := [pys ".py", pys ".pyi"]

/-- The `has_valid_ext` check of `get_filenames_from_paths`. -/
def hasValidExt (path : PyStr) : Bool :=
  validExt.any fun ext => pyEndsWith path ext

/-! ## Helper lemmas -/

/-- `InterrogateResults.combine` only sums tallies; it never touches the
return code. -/
theorem combine_ret_code (r : InterrogateResults) :
    (InterrogateResults.combine r).ret_code = r.ret_code := by
  unfold InterrogateResults.combine
  generalize r.file_results = l
  induction l generalizing r with
  | nil => rfl
  | cons fr rest ih => exact ih _

/-- `InterrogateResults.combine` leaves `file_results` unchanged. -/
theorem combine_file_results (r : InterrogateResults) :
    (InterrogateResults.combine r).file_results = r.file_results := by
  unfold InterrogateResults.combine
  have aux : ∀ (l : List InterrogateFileResult) (acc : InterrogateResults),
      (l.foldl (fun acc fr =>
        { acc with
            covered := acc.covered + fr.covered
            missing := acc.missing + fr.missing
            total := acc.total + fr.total }) acc).file_results = acc.file_results := by
    intro l
    induction l with
    | nil => intro acc; rfl
    | cons fr rest ih => intro acc; exact ih _
  exact aux _ _

/-! ## C1: fail-under verdict via digit-matched rounding -/

/-- The concrete run of C1: one (synthetic) file tally measuring
`percent_covered = 48.349`. -/
def c1FileResult : InterrogateFileResult :=
  { total := 100000, covered := 48349, missing := 51651 }

/-- The return code of a run is decided by comparing `fail_under` with
the combined percentage rounded to `fail_under.exp` decimal digits. -/
theorem getCoverageResults_ret_code (cfg : InterrogateConfig)
    (frs : List InterrogateFileResult) :
    (getCoverageResults cfg frs).ret_code =
      if cfg.fail_under.toRat >
          pyRound
            (InterrogateResults.combine
              { file_results := frs }).toBaseInterrogateResult.perc_covered
            cfg.fail_under.exp
      then 1 else 0 := by
  unfold getCoverageResults
  split
  · rfl
  · rw [combine_ret_code]

/-- C1: for every run, the return code is 1 iff `fail_under` is strictly
greater than `percent_covered` rounded to as many decimal places as
`fail_under` has, and 0 otherwise; in particular, with
`fail_under = 48.35` and a measured `percent_covered = 48.349`
(= 48349/1000), the run passes with return code 0. -/
theorem c1_fail_under_rounded_verdict :
    (∀ (cfg : InterrogateConfig) (frs : List InterrogateFileResult),
      ((getCoverageResults cfg frs).ret_code = 1 ↔
        cfg.fail_under.toRat >
          pyRound
            (InterrogateResults.combine
              { file_results := frs }).toBaseInterrogateResult.perc_covered
            cfg.fail_under.exp) ∧
      ((getCoverageResults cfg frs).ret_code = 0 ↔
        ¬ cfg.fail_under.toRat >
          pyRound
            (InterrogateResults.combine
              { file_results := frs }).toBaseInterrogateResult.perc_covered
            cfg.fail_under.exp)) ∧
    (InterrogateResults.combine
        { file_results := [c1FileResult] }).toBaseInterrogateResult.perc_covered
      = 48349 / 1000 ∧
    (getCoverageResults { fail_under := ⟨4835, 2⟩ } [c1FileResult]).ret_code = 0 := by
  have hperc :
      (InterrogateResults.combine
          { file_results := [c1FileResult] }).toBaseInterrogateResult.perc_covered
        = 48349 / 1000 := by
    show BaseInterrogateResult.perc_covered _ = _
    rw [show (InterrogateResults.combine
          { file_results := [c1FileResult] }).toBaseInterrogateResult
        = { total := 100000, covered := 48349, missing := 51651 } from rfl]
    unfold BaseInterrogateResult.perc_covered
    norm_num
  refine ⟨fun cfg frs => ?_, hperc, ?_⟩
  · rw [getCoverageResults_ret_code]
    by_cases h : cfg.fail_under.toRat >
        pyRound
          (InterrogateResults.combine
            { file_results := frs }).toBaseInterrogateResult.perc_covered
          cfg.fail_under.exp
    · rw [if_pos h]
      exact ⟨⟨fun _ => h, fun _ => rfl⟩, ⟨fun hz => by simp at hz, fun hn => (hn h).elim⟩⟩
    · rw [if_neg h]
      exact ⟨⟨fun hz => by simp at hz, fun hp => (h hp).elim⟩, ⟨fun _ => h, fun _ => rfl⟩⟩
  · rw [getCoverageResults_ret_code, hperc]
    have hfloor : ⌊(48349 / 1000 * (10 : ℚ) ^ (2 : Nat))⌋ = 4834 := by
      apply Int.floor_eq_iff.mpr
      constructor <;> norm_num
    have hround : pyRound ((48349 : ℚ) / 1000) 2 = 4835 / 100 := by
      unfold pyRound roundHalfEven
      rw [hfloor]
      norm_num
    rw [hround]
    have hcond : ¬ (PyDecimal.toRat ⟨4835, 2⟩ > (4835 / 100 : ℚ)) := by
      unfold PyDecimal.toRat
      norm_num
    rw [if_neg hcond]

/-! ## C2: total = 0 reports exactly 100% -/

/-- The vacuous-coverage case of `perc_covered`, for any tally. -/
theorem perc_covered_eq (b : BaseInterrogateResult) :
    (b.total = 0 → b.perc_covered = 100 ∧ b.perc_covered ≠ 0) ∧
    (0 < b.total → b.perc_covered = (b.covered : ℚ) / (b.total : ℚ) * 100) := by
  constructor
  · intro h
    unfold BaseInterrogateResult.perc_covered
    rw [if_pos h]
    norm_num
  · intro h
    unfold BaseInterrogateResult.perc_covered
    rw [if_neg (Nat.pos_iff_ne_zero.mp h)]

/-- C2: every per-file result produced by the pipeline, and the combined
run result, report `percent_covered = 100` (never `0`, and in this exact
rational model never any non-number) when `total = 0`, and
`covered / total * 100` when `total > 0`. -/
theorem c2_perc_covered_vacuous_full :
    (∀ (cfg : InterrogateConfig) (fname : PyStr) (tree : PyAst)
        (fr : InterrogateFileResult), getFileCoverage cfg fname tree = some fr →
      (fr.total = 0 →
        fr.toBaseInterrogateResult.perc_covered = 100 ∧
        fr.toBaseInterrogateResult.perc_covered ≠ 0) ∧
      (0 < fr.total →
        fr.toBaseInterrogateResult.perc_covered =
          (fr.covered : ℚ) / (fr.total : ℚ) * 100)) ∧
    (∀ (frs : List InterrogateFileResult),
      ((InterrogateResults.combine { file_results := frs }).total = 0 →
        (InterrogateResults.combine
          { file_results := frs }).toBaseInterrogateResult.perc_covered = 100 ∧
        (InterrogateResults.combine
          { file_results := frs }).toBaseInterrogateResult.perc_covered ≠ 0) ∧
      (0 < (InterrogateResults.combine { file_results := frs }).total →
        (InterrogateResults.combine
            { file_results := frs }).toBaseInterrogateResult.perc_covered =
          ((InterrogateResults.combine { file_results := frs }).covered : ℚ) /
            ((InterrogateResults.combine { file_results := frs }).total : ℚ) * 100)) :=
  ⟨fun _ _ _ fr _ => perc_covered_eq fr.toBaseInterrogateResult,
   fun frs =>
    perc_covered_eq
      (InterrogateResults.combine { file_results := frs }).toBaseInterrogateResult⟩

/-- The file result of interrogating an empty module `w.py` with the
default configuration. -/
def c2FileResult : InterrogateFileResult :=
  { total := 1, covered := 0, missing := 1
    filename := pys "w.py"
    ignore_module := false
    nodes := [{ name := pys "w.py", path := pys "w.py", level := 0,
                lineno := none, covered := false, node_type := "Module",
                is_nested_func := false, is_nested_cls := false,
                parent := none }] }

/-- Witness for C2: a run whose file results are all omitted has
`total = 0` and reports 100%; an empty module file has `total = 1` and
reports `0 / 1 * 100`. -/
theorem c2_perc_covered_vacuous_full_witness :
    ((InterrogateResults.combine
        { file_results :=
          ([] : List InterrogateFileResult) }).toBaseInterrogateResult.perc_covered
      = 100) ∧
    (c2FileResult.toBaseInterrogateResult.perc_covered =
      (c2FileResult.covered : ℚ) / (c2FileResult.total : ℚ) * 100) :=
  ⟨((c2_perc_covered_vacuous_full.2 []).1 (by decide)).1,
   (c2_perc_covered_vacuous_full.1 {} (pys "w.py") (.module none .nil) c2FileResult
      (by decide)).2 (by decide)⟩

/-! ## C10: the Google-style merge does not check the parent's kind -/

/-- Configuration selecting the Google docstring convention. -/
def googleCfg : InterrogateConfig := { docstring_style := "google" }

/-- A file whose only definition is a documented module-level function
named `__init__`, in an undocumented module. -/
def moduleInitTree : PyAst :=
  .module none
    (.cons (.functionDef (pys "__init__") (some (pys "doc")) [] 1 .nil) .nil)

/-- A file whose only definition is an undocumented module-level function
named `__init__`, in a documented module. -/
def moduleInitTreeConverse : PyAst :=
  .module (some (pys "doc"))
    (.cons (.functionDef (pys "__init__") none [] 1 .nil) .nil)

/-- C10: the Google-style merge fires for any surviving `FunctionDef`
named `__init__` whatever its parent is — a documented module-level
`__init__` marks the (undocumented) Module node covered, and an
undocumented module-level `__init__` is marked covered from the module's
docstring. -/
theorem c10_google_merge_ignores_parent_kind :
    ((visitTree googleCfg (pys "a.py") moduleInitTree).nodes.map fun n =>
        (n.node_type, n.name, n.parent, n.covered))
      = [("Module", pys "a.py", none, false),
         ("FunctionDef", pys "__init__", some 0, true)] ∧
    ((getFileCoverage googleCfg (pys "a.py") moduleInitTree).map fun fr =>
        fr.nodes.map fun n => (n.node_type, n.covered))
      = some [("Module", true), ("FunctionDef", true)] ∧
    ((visitTree googleCfg (pys "a.py") moduleInitTreeConverse).nodes.map fun n =>
        (n.node_type, n.name, n.parent, n.covered))
      = [("Module", pys "a.py", none, true),
         ("FunctionDef", pys "__init__", some 0, false)] ∧
    ((getFileCoverage googleCfg (pys "a.py") moduleInitTreeConverse).map fun fr =>
        fr.nodes.map fun n => (n.node_type, n.covered))
      = some [("Module", true), ("FunctionDef", true)] := by
  decide

/-! ## C5: private / semiprivate name classification -/

/-- Number of leading underscores of a name. -/
def leadingUnderscores : PyStr → Nat
  | [] => 0
  | c :: r => if c = '_' then leadingUnderscores r + 1 else 0

/-- Number of trailing underscores of a name. -/
def trailingUnderscores (s : PyStr) : Nat := leadingUnderscores s.reverse

/-- A `__` prefix is the same as having at least two leading
underscores. -/
theorem isPrefixOf_double_underscore (l : PyStr) :
    (['_', '_'] : PyStr).isPrefixOf l = true ↔ 2 ≤ leadingUnderscores l := by
  match l with
  | [] => simp [List.isPrefixOf, leadingUnderscores]
  | [a] =>
      by_cases ha : a = '_' <;>
        simp [List.isPrefixOf, leadingUnderscores, ha]
  | a :: b :: r =>
      by_cases ha : a = '_' <;> by_cases hb : b = '_' <;>
        simp [List.isPrefixOf, leadingUnderscores, ha, hb]
      all_goals simp_all [eq_comm]

/-- A `_` prefix is the same as having at least one leading underscore. -/
theorem isPrefixOf_single_underscore (l : PyStr) :
    (['_'] : PyStr).isPrefixOf l = true ↔ 1 ≤ leadingUnderscores l := by
  match l with
  | [] => simp [List.isPrefixOf, leadingUnderscores]
  | a :: r =>
      by_cases ha : a = '_' <;>
        simp [List.isPrefixOf, leadingUnderscores, ha]
      all_goals simp_all [eq_comm]

/-- A `__` suffix is the same as having at least two trailing
underscores. -/
theorem isSuffixOf_double_underscore (l : PyStr) :
    (['_', '_'] : PyStr).isSuffixOf l = true ↔ 2 ≤ trailingUnderscores l := by
  show (['_', '_'] : PyStr).reverse.isPrefixOf l.reverse = true ↔ _
  rw [show (['_', '_'] : PyStr).reverse = ['_', '_'] from rfl]
  exact isPrefixOf_double_underscore l.reverse

/-- C5 fails as stated: the name `___x` (three leading underscores) is
classified as private by the visitor, although it does not start with
*exactly two* leading underscores. -/
theorem c5_counterexample_triple_underscore :
    ¬ (isPrivate (pys "___x") = true ↔
        leadingUnderscores (pys "___x") = 2 ∧
        trailingUnderscores (pys "___x") ≤ 1) := by
  decide

/-- C5 (amended): a name is private iff it has *at least* two leading
underscores and at most one trailing underscore; it is semiprivate iff
it has exactly one leading underscore and at most one trailing
underscore.  In particular `__dunder__` is neither, `_foo` is
semiprivate only, and `__foo` is private only. -/
theorem c5_amended_visibility_classification :
    (∀ name : PyStr,
      (isPrivate name = true ↔
        2 ≤ leadingUnderscores name ∧ trailingUnderscores name ≤ 1) ∧
      (isSemiprivate name = true ↔
        leadingUnderscores name = 1 ∧ trailingUnderscores name ≤ 1)) ∧
    isPrivate (pys "__dunder__") = false ∧
    isSemiprivate (pys "__dunder__") = false ∧
    isSemiprivate (pys "_foo") = true ∧
    isPrivate (pys "_foo") = false ∧
    isPrivate (pys "__foo") = true ∧
    isSemiprivate (pys "__foo") = false := by
  refine ⟨fun name => ?_, by decide, by decide, by decide, by decide, by decide, by decide⟩
  have hpre2 := isPrefixOf_double_underscore name
  have hpre1 := isPrefixOf_single_underscore name
  have hsuf2 := isSuffixOf_double_underscore name
  have hd2 : pys "__" = (['_', '_'] : PyStr) := rfl
  have hd1 : pys "_" = (['_'] : PyStr) := rfl
  constructor
  · unfold isPrivate pyEndsWith pyStartsWith
    rw [hd2]
    by_cases h1 : (['_', '_'] : PyStr).isSuffixOf name = true <;>
      by_cases h2 : (['_', '_'] : PyStr).isPrefixOf name = true <;>
        simp only [Bool.not_eq_true] at h1 h2 <;>
          simp only [h1, h2, Bool.not_true, Bool.not_false, if_true, if_false,
            Bool.false_eq_true, false_iff, true_iff, if_pos, if_neg] <;>
            simp only [h1, h2, Bool.false_eq_true, false_iff, iff_true,
              true_iff, not_and, Bool.true_eq_false] at hpre2 hsuf2 ⊢ <;>
              omega
  · unfold isSemiprivate pyEndsWith pyStartsWith
    rw [hd2, hd1]
    by_cases h1 : (['_', '_'] : PyStr).isSuffixOf name = true <;>
      by_cases h2 : (['_', '_'] : PyStr).isPrefixOf name = true <;>
        by_cases h3 : (['_'] : PyStr).isPrefixOf name = true <;>
          simp only [Bool.not_eq_true] at h1 h2 h3 <;>
            simp only [h1, h2, h3, Bool.not_true, Bool.not_false, if_true, if_false,
              Bool.false_eq_true, false_iff, true_iff, if_pos, if_neg] <;>
              simp only [h1, h2, h3, Bool.false_eq_true, false_iff, iff_true,
                true_iff, not_and, Bool.true_eq_false] at hpre2 hpre1 hsuf2 ⊢ <;>
                omega

/-! ## C4: an excluded class excludes its whole subtree -/

/-- Structural induction on sibling lists alone (the head `PyAst` is
left opaque), built from the mutual recursor. -/
def pyAstListInduction (motive : PyAstList → Prop) (hnil : motive .nil)
    (hcons : ∀ a l, motive l → motive (.cons a l)) (l : PyAstList) : motive l :=
  @PyAstList.rec (fun _ => True) motive
    (fun _ _ _ => trivial)
    (fun _ _ _ _ _ _ => trivial)
    (fun _ _ _ _ _ _ => trivial)
    (fun _ _ _ _ _ _ => trivial)
    (fun _ _ => trivial)
    hnil
    (fun a l _ ih => hcons a l ih)
    l

/-- C4: visiting a class that `_is_class_ignored` rejects leaves the
visitor state untouched (no node of its subtree is recorded, whatever
the docstrings inside), and deleting the whole class subtree from any
body gives the identical traversal result. -/
theorem c4_excluded_class_subtree_skipped
    (cfg : InterrogateConfig) (fname : PyStr) (st : VisitState)
    (nm : PyStr) (doc : Option PyStr) (decs : List Deco) (ln : Nat)
    (body : PyAstList) (l1 l2 : PyAstList)
    (h : isClassIgnored cfg nm = true) :
    visitNode cfg fname st (.classDef nm doc decs ln body) = st ∧
    visitList cfg fname st (l1.append (.cons (.classDef nm doc decs ln body) l2))
      = visitList cfg fname st (l1.append l2) := by
  have hskip : ∀ st' : VisitState,
      visitNode cfg fname st' (.classDef nm doc decs ln body) = st' := by
    intro st'
    rw [visitNode]
    simp [h]
  refine ⟨hskip st, ?_⟩
  induction l1 using pyAstListInduction generalizing st with
  | hnil => simp [PyAstList.append, visitList, hskip]
  | hcons a t ih =>
      show visitList cfg fname st
          (.cons a (t.append (.cons (.classDef nm doc decs ln body) l2)))
        = visitList cfg fname st (.cons a (t.append l2))
      rw [visitList, visitList]
      exact ih (visitNode cfg fname st a)

/-- A configuration whose ignore-regex excludes names starting with
`Secret`. -/
def c4Config : InterrogateConfig := { ignore_regex := [pys "Secret"] }

/-- The body of the excluded class of the C4 witness: a documented
method. -/
def c4ClassBody : PyAstList :=
  .cons (.functionDef (pys "meth") (some (pys "doc")) [] 3 .nil) .nil

/-- Witness for C4: with ignore-regex `Secret`, the class `Secret` is
ignored, visiting it changes nothing, and deleting it from a module body
leaves the traversal unchanged. -/
theorem c4_excluded_class_subtree_skipped_witness :
    isClassIgnored c4Config (pys "Secret") = true ∧
    visitNode c4Config (pys "a.py") ⟨[], []⟩
        (.classDef (pys "Secret") none [] 2 c4ClassBody) = ⟨[], []⟩ ∧
    visitList c4Config (pys "a.py") ⟨[], []⟩
        ((PyAstList.cons (.functionDef (pys "f") (some (pys "d")) [] 1 .nil) .nil).append
          (.cons (.classDef (pys "Secret") none [] 2 c4ClassBody) .nil))
      = visitList c4Config (pys "a.py") ⟨[], []⟩
          ((PyAstList.cons (.functionDef (pys "f") (some (pys "d")) [] 1 .nil) .nil).append
            .nil) :=
  ⟨by decide,
   c4_excluded_class_subtree_skipped c4Config (pys "a.py") ⟨[], []⟩
     (pys "Secret") none [] 2 c4ClassBody
     (.cons (.functionDef (pys "f") (some (pys "d")) [] 1 .nil) .nil) .nil
     (by decide)⟩

/-! ## C8 / C9: the include/whitelist filter -/

/-- Every index the include loop keeps is a non-module node whose bare
name matches at least one configured pattern. -/
theorem includeLoop_kept_matches (cfg : InterrogateConfig) (pool : List CovNode) :
    ∀ (nodes : List Nat) (j : Nat), j ∈ (includeLoop cfg pool nodes).2 →
      isModuleIdx pool j = false ∧ 0 < matchCount cfg pool j := by
  intro nodes
  induction nodes with
  | nil => intro j hj; simp [includeLoop] at hj
  | cons i rest ih =>
      intro j hj
      rw [includeLoop] at hj
      by_cases hm : isModuleIdx pool i = true
      · rw [if_pos hm] at hj
        exact ih j hj
      · rw [if_neg hm] at hj
        rcases List.mem_append.mp hj with hrep | hrest
        · rcases List.mem_replicate.mp hrep with ⟨hn, rfl⟩
          exact ⟨Bool.not_eq_true _ ▸ hm, Nat.pos_of_ne_zero hn⟩
        · exact ih j hrest

/-- The module reference the include loop returns is a Module node from
the input list. -/
theorem includeLoop_module_spec (cfg : InterrogateConfig) (pool : List CovNode) :
    ∀ (nodes : List Nat) (m : Nat), (includeLoop cfg pool nodes).1 = some m →
      isModuleIdx pool m = true ∧ m ∈ nodes := by
  intro nodes
  induction nodes with
  | nil => intro m hm; simp [includeLoop] at hm
  | cons i rest ih =>
      intro m hm
      rw [includeLoop] at hm
      by_cases hmod : isModuleIdx pool i = true
      · rw [if_pos hmod] at hm
        cases ho : (includeLoop cfg pool rest).1 with
        | none =>
            rw [ho] at hm
            simp only [Option.none_orElse] at hm
            cases hm
            exact ⟨hmod, List.mem_cons_self _ _⟩
        | some mr =>
            rw [ho] at hm
            simp only [Option.some_orElse] at hm
            have hmm : mr = m := by injection hm
            subst hmm
            have hmr := ih mr ho
            exact ⟨hmr.1, List.mem_cons_of_mem _ hmr.2⟩
      · rw [if_neg hmod] at hm
        have := ih m hm
        exact ⟨this.1, List.mem_cons_of_mem _ this.2⟩

/-- C8: with include patterns configured, the include/whitelist part of
`_filter_nodes` keeps exactly the non-module nodes whose bare name
matches some pattern (anchored at the start); the Module node is put
back at the front iff some non-module node survived, and is dropped when
none did; with no patterns configured the stage returns its input
unchanged. -/
theorem c8_include_filter_stage
    (cfg : InterrogateConfig) (pool : List CovNode) (nodes : List Nat) :
    (cfg.include_regex = [] → includeFilterStage cfg pool nodes = nodes) ∧
    (cfg.include_regex ≠ [] →
      (∀ j ∈ (includeLoop cfg pool nodes).2,
        isModuleIdx pool j = false ∧ 0 < matchCount cfg pool j) ∧
      ((includeLoop cfg pool nodes).2 = [] →
        includeFilterStage cfg pool nodes = []) ∧
      ((includeLoop cfg pool nodes).2 ≠ [] →
        includeFilterStage cfg pool nodes =
          match (includeLoop cfg pool nodes).1 with
          | some m => m :: (includeLoop cfg pool nodes).2
          | none => (includeLoop cfg pool nodes).2) ∧
      (∀ m, (includeLoop cfg pool nodes).1 = some m →
        isModuleIdx pool m = true ∧ m ∈ nodes)) := by
  constructor
  · intro h
    unfold includeFilterStage
    rw [if_pos (List.isEmpty_iff.mpr h)]
  · intro h
    refine ⟨includeLoop_kept_matches cfg pool nodes, ?_, ?_,
      includeLoop_module_spec cfg pool nodes⟩
    · intro hempty
      unfold includeFilterStage
      rw [if_neg (by simp [List.isEmpty_iff, h])]
      rcases ho : (includeLoop cfg pool nodes).1 with _ | m
      · simpa [ho] using hempty
      · simp [ho, hempty]
    · intro hne
      unfold includeFilterStage
      rw [if_neg (by simp [List.isEmpty_iff, h])]
      rcases ho : (includeLoop cfg pool nodes).1 with _ | m
      · simp [ho]
      · simp [ho, List.isEmpty_iff, hne]

/-- Counting law of the include loop: a non-module index is kept once
per matching pattern and per occurrence in the input. -/
theorem includeLoop_count (cfg : InterrogateConfig) (pool : List CovNode)
    (j : Nat) (hj : isModuleIdx pool j = false) :
    ∀ nodes : List Nat,
      List.count j (includeLoop cfg pool nodes).2 =
        List.count j nodes * matchCount cfg pool j := by
  intro nodes
  induction nodes with
  | nil => simp [includeLoop]
  | cons i rest ih =>
      rw [includeLoop]
      by_cases hm : isModuleIdx pool i = true
      · rw [if_pos hm]
        have hij : ¬ (i = j) := fun h => by
          rw [h, hj] at hm
          cases hm
        simp only [List.count_cons]
        rw [ih]
        simp [hij]
      · rw [if_neg hm]
        simp only [List.count_append, List.count_cons, List.count_replicate]
        rw [ih]
        by_cases hij : i = j
        · subst hij
          simp [Nat.add_mul]
          omega
        · simp [hij, Ne.symm hij]

/-- Include patterns of the C9 scenario: two patterns (`al`, `alp`) both
matching the function `alpha`. -/
def c9Config : InterrogateConfig := { include_regex := [pys "al", pys "alp"] }

/-- A documented module with one documented function `alpha`. -/
def c9Tree : PyAst :=
  .module (some (pys "d"))
    (.cons (.functionDef (pys "alpha") (some (pys "d")) [] 1 .nil) .nil)

/-- C9: a non-module node is kept once per occurrence and per matching
include pattern, and the duplicates are tallied separately: in the
concrete scenario the single function `alpha` matches both patterns, so
the file tallies `total = 3, covered = 3` over the node list
`[module, alpha, alpha]`. -/
theorem c9_multi_match_duplicates :
    (∀ (cfg : InterrogateConfig) (pool : List CovNode) (nodes : List Nat) (j : Nat),
      cfg.include_regex ≠ [] → isModuleIdx pool j = false →
      List.count j (includeFilterStage cfg pool nodes) =
        List.count j nodes * matchCount cfg pool j) ∧
    ((getFileCoverage c9Config (pys "a.py") c9Tree).map fun fr =>
        (fr.total, fr.covered, fr.missing, fr.nodes.map fun n => n.name))
      = some (3, 3, 0, [pys "a.py", pys "alpha", pys "alpha"]) := by
  constructor
  · intro cfg pool nodes j hne hj
    unfold includeFilterStage
    rw [if_neg (by simp [List.isEmpty_iff, hne])]
    cases ho : (includeLoop cfg pool nodes).1 with
    | none =>
        simp only [ho]
        exact includeLoop_count cfg pool j hj nodes
    | some m =>
        have hmod := (includeLoop_module_spec cfg pool nodes m ho).1
        have hmj : ¬ (m = j) := fun h => by
          rw [h, hj] at hmod
          cases hmod
        have hc := includeLoop_count cfg pool j hj nodes
        by_cases hempty : (includeLoop cfg pool nodes).2 = []
        · rw [hempty] at hc
          simp only [List.count_nil] at hc
          simp [ho, hempty]
          exact Nat.mul_eq_zero.mp hc.symm
        · simp only [ho]
          rw [if_neg (by simpa [List.isEmpty_iff] using hempty)]
          simp only [List.count_cons]
          rw [hc]
          simp [hmj]
  · decide

/-- The node pool of the C9 witness file. -/
def c9Pool : List CovNode := (visitTree c9Config (pys "a.py") c9Tree).nodes

/-- Witness for C9: applying the counting law to the concrete pool —
node 1 (`alpha`) is non-module, occurs once, and matches both patterns,
so it appears twice in the filtered list. -/
theorem c9_multi_match_duplicates_witness :
    List.count 1 (includeFilterStage c9Config c9Pool [0, 1]) =
      List.count 1 [0, 1] * matchCount c9Config c9Pool 1 :=
  c9_multi_match_duplicates.1 c9Config c9Pool [0, 1] 1 (by decide) (by decide)

/-- Include pattern for the C8 witness: only names starting `al`. -/
def c8Config : InterrogateConfig := { include_regex := [pys "al"] }

/-- A module with two functions, `alpha` (matching) and `beta` (not). -/
def c8Tree : PyAst :=
  .module (some (pys "d"))
    (.cons (.functionDef (pys "alpha") (some (pys "d")) [] 1 .nil)
      (.cons (.functionDef (pys "beta") none [] 2 .nil) .nil))

/-- The node pool of the C8 witness file. -/
def c8Pool : List CovNode := (visitTree c8Config (pys "a.py") c8Tree).nodes

/-- Witness for C8: with no patterns the stage is the identity on the
concrete node list, and with the pattern `al` the surviving index 1
(`alpha`) is a matching non-module node. -/
theorem c8_include_filter_stage_witness :
    includeFilterStage {} c8Pool [0, 1, 2] = [0, 1, 2] ∧
    (isModuleIdx c8Pool 1 = false ∧ 0 < matchCount c8Config c8Pool 1) :=
  ⟨(c8_include_filter_stage {} c8Pool [0, 1, 2]).1 rfl,
   ((c8_include_filter_stage c8Config c8Pool [0, 1, 2]).2 (by decide)).1 1 (by decide)⟩

/-! ## C3: Google-style class/constructor equivalence -/

/-- A class with two `__init__` definitions (legal Python: the second
rebinds the name), the first undocumented, the second documented. -/
def c3Tree : PyAst :=
  .module none
    (.cons
      (.classDef (pys "C") none [] 1
        (.cons (.functionDef (pys "__init__") none [] 2 .nil)
          (.cons (.functionDef (pys "__init__") (some (pys "d")) [] 3 .nil) .nil)))
      .nil)

/-- C3 fails as stated: after the Google-style merge on `c3Tree`, node 2
is a `FunctionDef` named `__init__` whose parent is the `ClassDef`
node 1, yet the class is covered and that constructor is not — the
second `__init__` of the same class flipped the class flag after the
first one had already been processed. -/
theorem c3_counterexample_duplicate_init :
    ((getFileCoverage googleCfg (pys "a.py") c3Tree).map fun fr =>
        fr.nodes.map fun n => (n.node_type, n.name, n.parent, n.covered))
      = some [("Module", pys "a.py", none, false),
              ("ClassDef", pys "C", some 0, true),
              ("FunctionDef", pys "__init__", some 1, false),
              ("FunctionDef", pys "__init__", some 1, true)] := by
  decide

/-- The fields of a `CovNode` that the Google-style merge reads but
never writes: name, node type, parent reference. -/
def covSkel (n : CovNode) : PyStr × String × Option Nat :=
  (n.name, n.node_type, n.parent)

/-- `googleStep` never changes the length of the pool. -/
theorem googleStep_length (p : List CovNode) (j : Nat) :
    (googleStep p j).length = p.length := by
  unfold googleStep
  repeat' split
  all_goals simp [List.length_set]

/-- `googleStep` changes only `covered` flags: every entry keeps its
name, node type and parent. -/
theorem googleStep_skel (p : List CovNode) (j k : Nat) :
    ((googleStep p j)[k]?).map covSkel = (p[k]?).map covSkel := by
  rcases hj : p[j]? with _ | nd
  · simp only [googleStep, hj]
  · simp only [googleStep, hj]
    split
    · rcases hpar : nd.parent with _ | pi
      · simp only [hpar]
      · simp only [hpar]
        rcases hpp : p[pi]? with _ | pnd
        · simp only [hpp]
        · simp only [hpp]
          have hjlen : j < p.length := (List.getElem?_eq_some_iff.mp hj).1
          have hpilen : pi < p.length := (List.getElem?_eq_some_iff.mp hpp).1
          split
          · by_cases hkj : j = k
            · subst hkj
              rw [List.getElem?_set_self (by simpa using hjlen), hj]
              simp [covSkel, hpar]
            · rw [List.getElem?_set_ne hkj]
          · split
            · by_cases hkpi : pi = k
              · subst hkpi
                rw [List.getElem?_set_self (by simpa using hpilen), hpp]
                simp [covSkel]
              · rw [List.getElem?_set_ne hkpi]
            · rfl
    · rfl

/-- `googleStep` never clears a `covered` flag. -/
theorem googleStep_mono (p : List CovNode) (j k : Nat) {nk nk' : CovNode}
    (hk : p[k]? = some nk) (hk' : (googleStep p j)[k]? = some nk')
    (hc : nk.covered = true) : nk'.covered = true := by
  rcases hj : p[j]? with _ | nd
  · simp only [googleStep, hj] at hk'
    rw [hk] at hk'
    cases hk'
    exact hc
  · simp only [googleStep, hj] at hk'
    split at hk'
    · rcases hpar : nd.parent with _ | pi <;> simp only [hpar] at hk'
      · rw [hk] at hk'
        cases hk'
        exact hc
      · rcases hpp : p[pi]? with _ | pnd <;> simp only [hpp] at hk'
        · rw [hk] at hk'
          cases hk'
          exact hc
        · split at hk'
          · rw [List.getElem?_set] at hk'
            split at hk'
            · split at hk'
              · rename_i hjk _
                subst hjk
                cases hk'
                rfl
              · cases hk'
            · rw [hk] at hk'
              cases hk'
              exact hc
          · split at hk'
            · rw [List.getElem?_set] at hk'
              split at hk'
              · split at hk'
                · rename_i hpik _
                  subst hpik
                  cases hk'
                  rfl
                · cases hk'
              · rw [hk] at hk'
                cases hk'
                exact hc
            · rw [hk] at hk'
              cases hk'
              exact hc
    · rw [hk] at hk'
      cases hk'
      exact hc

/-- `googleStep` is the identity unless the visited entry is a
`FunctionDef` named `__init__`. -/
theorem googleStep_id (p : List CovNode) (j : Nat)
    (h : ∀ nj, p[j]? = some nj →
      ¬(nj.node_type = "FunctionDef" ∧ nj.name = pys "__init__")) :
    googleStep p j = p := by
  rcases hj : p[j]? with _ | nd
  · simp only [googleStep, hj]
  · simp only [googleStep, hj]
    rw [if_neg]
    intro hcontra
    rcases Bool.and_eq_true_iff.mp hcontra with ⟨h1, h2⟩
    exact h nd hj ⟨by simpa using h1, by simpa using h2⟩

/-- The entry at `k` is untouched by `googleStep p j` provided `j ≠ k`
and no `__init__`-named `FunctionDef` at `j` has `k` as its parent. -/
theorem googleStep_untouched (p : List CovNode) (j k : Nat) (hkj : j ≠ k)
    (h : ∀ nj, p[j]? = some nj → nj.node_type = "FunctionDef" →
      nj.name = pys "__init__" → nj.parent ≠ some k) :
    (googleStep p j)[k]? = p[k]? := by
  rcases hj : p[j]? with _ | nd
  · simp only [googleStep, hj]
  · simp only [googleStep, hj]
    split
    · rename_i hinit
      rcases Bool.and_eq_true_iff.mp hinit with ⟨h1, h2⟩
      have hnd := h nd hj (by simpa using h1) (by simpa using h2)
      rcases hpar : nd.parent with _ | pi
      all_goals simp only [hpar]
      have hpik : pi ≠ k := by
        intro hcontra
        rw [hpar, hcontra] at hnd
        exact hnd rfl
      rcases hpp : p[pi]? with _ | pnd
      all_goals simp only [hpp]
      split
      · rw [List.getElem?_set_ne hkj]
      · split
        · rw [List.getElem?_set_ne hpik]
        · rfl
    · rfl

/-- Effect of `googleStep` on an `__init__` constructor and its parent:
afterwards both carry the disjunction of their `covered` flags (and all
other fields are unchanged). -/
theorem googleStep_pair (p : List CovNode) (i c : Nat) {ni nc : CovNode}
    (hi : p[i]? = some ni) (hit : ni.node_type = "FunctionDef")
    (hin : ni.name = pys "__init__") (hip : ni.parent = some c)
    (hc : p[c]? = some nc) (hic : i ≠ c) :
    (googleStep p i)[i]? = some { ni with covered := ni.covered || nc.covered } ∧
    (googleStep p i)[c]? = some { nc with covered := ni.covered || nc.covered } := by
  have hilen : i < p.length := (List.getElem?_eq_some_iff.mp hi).1
  have hclen : c < p.length := (List.getElem?_eq_some_iff.mp hc).1
  simp only [googleStep, hi, hip, hc]
  rw [if_pos (by simp [hit, hin])]
  by_cases h1 : (!ni.covered && nc.covered) = true
  · rcases Bool.and_eq_true_iff.mp h1 with ⟨ha, hb⟩
    have hna : ni.covered = false := by simpa using ha
    rw [if_pos h1]
    constructor
    · rw [List.getElem?_set_self (by simpa using hilen), hna, hb, Bool.false_or]
    · rw [List.getElem?_set_ne hic, hc, hna, hb, Bool.false_or, ← hb]
  · rw [if_neg h1]
    by_cases h2 : (ni.covered && !nc.covered) = true
    · rcases Bool.and_eq_true_iff.mp h2 with ⟨ha, hb⟩
      have hnb : nc.covered = false := by simpa using hb
      rw [if_pos h2]
      constructor
      · rw [List.getElem?_set_ne (Ne.symm hic), hi, ha, hnb, Bool.or_false, ← ha, ← hip]
      · rw [List.getElem?_set_self (by simpa using hclen), ha, hnb, Bool.or_false]
    · rw [if_neg h2]
      simp only [Bool.and_eq_true, Bool.not_eq_true'] at h1 h2
      have heq : ni.covered = nc.covered := by
        cases hx : ni.covered <;> cases hy : nc.covered <;> simp_all
      constructor
      · rw [hi, ← heq, Bool.or_self, ← hip]
      · rw [hc, heq, Bool.or_self]

/-- `setGoogleStyle` changes only `covered` flags. -/
theorem setGoogle_skel (order : List Nat) :
    ∀ (p : List CovNode) (k : Nat),
      ((setGoogleStyle p order)[k]?).map covSkel = (p[k]?).map covSkel := by
  induction order with
  | nil => intro p k; rfl
  | cons j rest ih =>
      intro p k
      show ((setGoogleStyle (googleStep p j) rest)[k]?).map covSkel = _
      rw [ih (googleStep p j) k, googleStep_skel]

/-- `setGoogleStyle` never clears a `covered` flag. -/
theorem setGoogle_mono (order : List Nat) :
    ∀ (p : List CovNode) (k : Nat) (nk nk' : CovNode),
      p[k]? = some nk → (setGoogleStyle p order)[k]? = some nk' →
      nk.covered = true → nk'.covered = true := by
  induction order with
  | nil =>
      intro p k nk nk' hk hk' hc
      rw [show setGoogleStyle p [] = p from rfl, hk] at hk'
      cases hk'
      exact hc
  | cons j rest ih =>
      intro p k nk nk' hk hk' hc
      have hskel := googleStep_skel p j k
      rw [hk] at hskel
      rcases hmid : (googleStep p j)[k]? with _ | nmid
      · rw [hmid] at hskel
        cases hskel
      · have hmc := googleStep_mono p j k hk hmid hc
        exact ih (googleStep p j) k nmid nk' hmid hk' hmc

/-- `j` cannot touch the pair `(i, c)`: any `__init__`-named
`FunctionDef` at index `j` has a parent other than `i` and `c`. -/
def initTouches (p : List CovNode) (i c j : Nat) : Prop :=
  ∀ nj, p[j]? = some nj → nj.node_type = "FunctionDef" →
    nj.name = pys "__init__" → nj.parent ≠ some i ∧ nj.parent ≠ some c

/-- `initTouches` is stable under merge steps (they keep every skeleton
field). -/
theorem initTouches_step (p : List CovNode) (q i c j : Nat)
    (h : initTouches p i c j) : initTouches (googleStep p q) i c j := by
  intro nj hnj ht hn
  have hskel := googleStep_skel p q j
  rw [hnj] at hskel
  rcases h0 : p[j]? with _ | nj0
  · rw [h0] at hskel
    cases hskel
  · rw [h0] at hskel
    have hsk : covSkel nj = covSkel nj0 := by
      simpa using hskel
    have hname : nj.name = nj0.name := congrArg Prod.fst hsk
    have hrest := congrArg Prod.snd hsk
    have htype : nj.node_type = nj0.node_type := congrArg Prod.fst hrest
    have hpar : nj.parent = nj0.parent := congrArg Prod.snd hrest
    have hres := h nj0 h0 (htype.symm.trans ht) (hname.symm.trans hn)
    rw [hpar]
    exact hres

/-- Once the constructor and its class have equal `covered` flags, the
rest of the merge keeps them equal, provided no other `__init__` node in
the list targets either of them. -/
theorem setGoogle_pair_preserved (order : List Nat) :
    ∀ (p : List CovNode) (i c : Nat) (ni nc : CovNode),
      p[i]? = some ni → ni.node_type = "FunctionDef" →
      ni.name = pys "__init__" → ni.parent = some c →
      p[c]? = some nc → nc.node_type = "ClassDef" →
      ni.covered = nc.covered →
      (∀ j ∈ order, j ≠ i → initTouches p i c j) →
      ∃ ni' nc', (setGoogleStyle p order)[i]? = some ni' ∧
        (setGoogleStyle p order)[c]? = some nc' ∧ ni'.covered = nc'.covered := by
  induction order with
  | nil =>
      intro p i c ni nc hi _ _ _ hc _ hcov _
      exact ⟨ni, nc, hi, hc, hcov⟩
  | cons j rest ih =>
      intro p i c ni nc hi hit hin hip hc hct hcov hcond
      have hic : i ≠ c := by
        intro hiceq
        rw [hiceq, hc] at hi
        cases hi
        exact absurd (hit.symm.trans hct) (by decide)
      by_cases hji : j = i
      · subst hji
        obtain ⟨hpi, hpc⟩ := googleStep_pair p j c hi hit hin hip hc hic
        exact ih (googleStep p j) j c _ _ hpi hit hin hip hpc hct rfl
          (fun q hq hne => initTouches_step p j j c q
            (hcond q (List.mem_cons_of_mem _ hq) hne))
      · by_cases hjc : j = c
        · subst hjc
          have hid : googleStep p j = p := by
            apply googleStep_id
            intro nj hnj hcontra
            rw [hc] at hnj
            cases hnj
            exact absurd (hcontra.1.symm.trans hct) (by decide)
          show ∃ ni' nc', (setGoogleStyle (googleStep p j) rest)[i]? = some ni' ∧
            (setGoogleStyle (googleStep p j) rest)[j]? = some nc' ∧
            ni'.covered = nc'.covered
          rw [hid]
          exact ih p i j ni nc hi hit hin hip hc hct hcov
            (fun q hq hne => hcond q (List.mem_cons_of_mem _ hq) hne)
        · have hti : initTouches p i c j := hcond j (List.mem_cons_self _ _) hji
          have h1 : (googleStep p j)[i]? = p[i]? :=
            googleStep_untouched p j i hji
              (fun nj hnj ht hn => (hti nj hnj ht hn).1)
          have h2 : (googleStep p j)[c]? = p[c]? :=
            googleStep_untouched p j c hjc
              (fun nj hnj ht hn => (hti nj hnj ht hn).2)
          exact ih (googleStep p j) i c ni nc (h1.trans hi) hit hin hip
            (h2.trans hc) hct hcov
            (fun q hq hne => initTouches_step p j i c q
              (hcond q (List.mem_cons_of_mem _ hq) hne))

/-- Processing the constructor equalizes the pair, and the equality then
persists to the end of the merge. -/
theorem setGoogle_pair_equalizes (order : List Nat) :
    ∀ (p : List CovNode) (i c : Nat) (ni nc : CovNode),
      p[i]? = some ni → ni.node_type = "FunctionDef" →
      ni.name = pys "__init__" → ni.parent = some c →
      p[c]? = some nc → nc.node_type = "ClassDef" →
      i ∈ order →
      (∀ j ∈ order, j ≠ i → initTouches p i c j) →
      ∃ ni' nc', (setGoogleStyle p order)[i]? = some ni' ∧
        (setGoogleStyle p order)[c]? = some nc' ∧ ni'.covered = nc'.covered := by
  induction order with
  | nil =>
      intro p i c ni nc _ _ _ _ _ _ hmem _
      cases hmem
  | cons j rest ih =>
      intro p i c ni nc hi hit hin hip hc hct hmem hcond
      have hic : i ≠ c := by
        intro hiceq
        rw [hiceq, hc] at hi
        cases hi
        exact absurd (hit.symm.trans hct) (by decide)
      by_cases hji : j = i
      · subst hji
        obtain ⟨hpi, hpc⟩ := googleStep_pair p j c hi hit hin hip hc hic
        exact setGoogle_pair_preserved rest (googleStep p j) j c _ _ hpi hit hin
          hip hpc hct rfl
          (fun q hq hne => initTouches_step p j j c q
            (hcond q (List.mem_cons_of_mem _ hq) hne))
      · have hmem' : i ∈ rest := by
          rcases List.mem_cons.mp hmem with heq | hmem'
          · exact absurd heq.symm hji
          · exact hmem'
        by_cases hjc : j = c
        · subst hjc
          have hid : googleStep p j = p := by
            apply googleStep_id
            intro nj hnj hcontra
            rw [hc] at hnj
            cases hnj
            exact absurd (hcontra.1.symm.trans hct) (by decide)
          show ∃ ni' nc', (setGoogleStyle (googleStep p j) rest)[i]? = some ni' ∧
            (setGoogleStyle (googleStep p j) rest)[j]? = some nc' ∧
            ni'.covered = nc'.covered
          rw [hid]
          exact ih p i j ni nc hi hit hin hip hc hct hmem'
            (fun q hq hne => hcond q (List.mem_cons_of_mem _ hq) hne)
        · have hti : initTouches p i c j := hcond j (List.mem_cons_self _ _) hji
          have h1 : (googleStep p j)[i]? = p[i]? :=
            googleStep_untouched p j i hji
              (fun nj hnj ht hn => (hti nj hnj ht hn).1)
          have h2 : (googleStep p j)[c]? = p[c]? :=
            googleStep_untouched p j c hjc
              (fun nj hnj ht hn => (hti nj hnj ht hn).2)
          exact ih (googleStep p j) i c ni nc (h1.trans hi) hit hin hip
            (h2.trans hc) hct hmem'
            (fun q hq hne => initTouches_step p j i c q
              (hcond q (List.mem_cons_of_mem _ hq) hne))

/-- C3 (amended): under the Google style, for a `FunctionDef` named
`__init__` whose parent is a Class, the merge stage never clears a
`covered` flag, and it leaves the class and the constructor with equal
flags *provided* no other `__init__`-named function node in the
processed list has the constructor or the class as its parent (the
counterexample `c3_counterexample_duplicate_init` shows the equality can
fail otherwise). -/
theorem c3_amended_google_pair_equalized
    (pool : List CovNode) (order : List Nat) (i c : Nat) (ni nc : CovNode)
    (hi : pool[i]? = some ni) (hit : ni.node_type = "FunctionDef")
    (hin : ni.name = pys "__init__") (hip : ni.parent = some c)
    (hc : pool[c]? = some nc) (hct : nc.node_type = "ClassDef")
    (hmem : i ∈ order)
    (huniq : ∀ j ∈ order, j ≠ i → ∀ nj, pool[j]? = some nj →
      nj.node_type = "FunctionDef" → nj.name = pys "__init__" →
      nj.parent ≠ some i ∧ nj.parent ≠ some c) :
    (∃ ni' nc', (setGoogleStyle pool order)[i]? = some ni' ∧
      (setGoogleStyle pool order)[c]? = some nc' ∧
      ni'.covered = nc'.covered) ∧
    (∀ (k : Nat) (nk nk' : CovNode), pool[k]? = some nk →
      (setGoogleStyle pool order)[k]? = some nk' →
      nk.covered = true → nk'.covered = true) :=
  ⟨setGoogle_pair_equalizes order pool i c ni nc hi hit hin hip hc hct hmem
      (fun j hj hne => huniq j hj hne),
   fun k nk nk' hk hk' hcov => setGoogle_mono order pool k nk nk' hk hk' hcov⟩

/-- The witness file for the amended C3: a documented class with a
single undocumented `__init__`. -/
def c3WitnessTree : PyAst :=
  .module none
    (.cons
      (.classDef (pys "C") (some (pys "d")) [] 1
        (.cons (.functionDef (pys "__init__") none [] 2 .nil) .nil))
      .nil)

/-- The visitor pool of the C3 witness file. -/
def c3WitnessPool : List CovNode := (visitTree googleCfg (pys "a.py") c3WitnessTree).nodes

/-- Witness for the amended C3: in the witness file the merge leaves the
class (index 1) and its constructor (index 2) with equal `covered`
flags. -/
theorem c3_amended_google_pair_equalized_witness :
    ((setGoogleStyle c3WitnessPool [0, 1, 2])[2]?).map CovNode.covered =
      ((setGoogleStyle c3WitnessPool [0, 1, 2])[1]?).map CovNode.covered := by
  obtain ⟨ni', nc', h1, h2, h3⟩ :=
    (c3_amended_google_pair_equalized c3WitnessPool [0, 1, 2] 2 1
      { name := pys "__init__", path := pys "a.py:C.__init__", level := 2,
        lineno := some 2, covered := false, node_type := "FunctionDef",
        is_nested_func := false, is_nested_cls := false, parent := some 1 }
      { name := pys "C", path := pys "a.py:C", level := 1,
        lineno := some 1, covered := true, node_type := "ClassDef",
        is_nested_func := false, is_nested_cls := false, parent := some 0 }
      (by decide) (by decide) (by decide) (by decide) (by decide) (by decide)
      (by decide) (by decide)).1
  rw [h1, h2]
  simpa using h3

/-! ## C6 / C7: traversal invariants (nesting flags and paths) -/

/-- All stack entries are valid indices into the node list. -/
def stackOk (st : VisitState) : Prop := ∀ j ∈ st.stack, j < st.nodes.length

/-- What `_visit_helper` guarantees of every recorded node: a root node
(no parent) has cleared nesting flags and its own name as path; a child
node points to an earlier node, carries the nesting flags computed from
that parent's node type, and extends the parent's path with `:` exactly
when the parent's path ends in `.py`, else with `.`. -/
def nodeInv (nodes : List CovNode) (i : Nat) (n : CovNode) : Prop :=
  match n.parent with
  | none => n.is_nested_func = false ∧ n.is_nested_cls = false ∧ n.path = n.name
  | some p => ∃ pn, nodes[p]? = some pn ∧ p < i ∧
      n.is_nested_func = isNestedFunc (some pn) n.node_type ∧
      n.is_nested_cls = isNestedCls (some pn) n.node_type ∧
      n.path = pn.path ++
        (if pyEndsWith pn.path (pys ".py") then ':' :: n.name else '.' :: n.name)

/-- The node invariant, over the whole list. -/
def nodesInv (nodes : List CovNode) : Prop :=
  ∀ i n, nodes[i]? = some n → nodeInv nodes i n

/-- The full visitor-state invariant. -/
def visitInv (st : VisitState) : Prop := stackOk st ∧ nodesInv st.nodes

/-- `nodeInv` only looks at entries before `i`, so it survives appending
nodes at the end. -/
theorem nodeInv_append (nodes ext : List CovNode) (i : Nat) (n : CovNode)
    (h : nodeInv nodes i n) : nodeInv (nodes ++ ext) i n := by
  unfold nodeInv at h ⊢
  rcases hp : n.parent with _ | p
  · rw [hp] at h
    exact h
  · rw [hp] at h
    obtain ⟨pn, hpn, hlt, hrest⟩ := h
    have hplen : p < nodes.length := (List.getElem?_eq_some_iff.mp hpn).1
    exact ⟨pn, by rw [List.getElem?_append_left hplen]; exact hpn, hlt, hrest⟩

/-- `enterNode` preserves the invariant, pushes the new node's index and
appends exactly one node. -/
theorem enterNode_inv (st : VisitState) (nm : PyStr) (doc : Option PyStr)
    (lineno : Option Nat) (ntype : String) (h : visitInv st) :
    visitInv (enterNode st nm doc lineno ntype) ∧
    (enterNode st nm doc lineno ntype).stack = st.nodes.length :: st.stack ∧
    ∃ x, (enterNode st nm doc lineno ntype).nodes = st.nodes ++ [x] := by
  obtain ⟨hstack, hnodes⟩ := h
  refine ⟨⟨?_, ?_⟩, rfl, ⟨_, rfl⟩⟩
  · intro j hj
    simp only [enterNode, List.length_append, List.length_cons, List.length_nil]
    rcases List.mem_cons.mp hj with rfl | hj'
    · omega
    · have := hstack j hj'
      omega
  · intro i n hn
    by_cases hi : i < st.nodes.length
    · rw [show (enterNode st nm doc lineno ntype).nodes = st.nodes ++ _ from rfl,
        List.getElem?_append_left hi] at hn
      exact nodeInv_append _ _ _ _ (hnodes i n hn)
    · have hilen : i < st.nodes.length + 1 := by
        have := (List.getElem?_eq_some_iff.mp hn).1
        simpa [enterNode] using this
      have hieq : i = st.nodes.length := by omega
      subst hieq
      rw [show (enterNode st nm doc lineno ntype).nodes = st.nodes ++ _ from rfl,
        List.getElem?_concat_length] at hn
      cases hn
      unfold nodeInv
      rcases hst : st.stack with _ | ⟨p, rest⟩
      · simp [hst, enterNode, isNestedFunc, isNestedCls]
      · have hplen : p < st.nodes.length := hstack p (by rw [hst]; exact List.mem_cons_self _ _)
        rcases hpn : st.nodes[p]? with _ | pn
        · exact absurd hpn (by simp [List.getElem?_eq_some_iff]; omega)
        · simp only [hst, List.head?_cons, Option.some_bind, hpn]
          refine ⟨pn, ?_, hplen, rfl, rfl, ?_⟩
          · obtain ⟨x, hx⟩ : ∃ x,
                (enterNode st nm doc lineno ntype).nodes = st.nodes ++ [x] := ⟨_, rfl⟩
            rw [hx, List.getElem?_append_left hplen]
            exact hpn
          · split <;> simp_all

/-- Popping the stack keeps the invariant. -/
theorem pop_inv (st : VisitState) (h : visitInv st) :
    visitInv ⟨st.stack.tail, st.nodes⟩ :=
  ⟨fun j hj => h.1 j (List.mem_of_mem_tail hj), h.2⟩

/-- The push / visit children / pop pattern of `_visit_helper` preserves
the invariant, restores the stack, and only appends nodes. -/
theorem visitRecord_inv (cfg : InterrogateConfig) (fname : PyStr)
    (body : PyAstList) (nm : PyStr) (doc : Option PyStr) (lineno : Option Nat)
    (ntype : String) (st : VisitState) (h : visitInv st)
    (hbody : ∀ st', visitInv st' →
      visitInv (visitList cfg fname st' body) ∧
      (visitList cfg fname st' body).stack = st'.stack ∧
      ∃ ext, (visitList cfg fname st' body).nodes = st'.nodes ++ ext) :
    visitInv ⟨(visitList cfg fname (enterNode st nm doc lineno ntype) body).stack.tail,
              (visitList cfg fname (enterNode st nm doc lineno ntype) body).nodes⟩ ∧
    (visitList cfg fname (enterNode st nm doc lineno ntype) body).stack.tail = st.stack ∧
    ∃ ext, (visitList cfg fname (enterNode st nm doc lineno ntype) body).nodes
      = st.nodes ++ ext := by
  obtain ⟨h1, h2, x, hx⟩ := enterNode_inv st nm doc lineno ntype h
  obtain ⟨h3, h4, ext, hext⟩ := hbody _ h1
  refine ⟨⟨fun j hj => h3.1 j (List.mem_of_mem_tail hj), h3.2⟩, ?_, ?_⟩
  · rw [h4, h2]
    rfl
  · exact ⟨[x] ++ ext, by rw [hext, hx, List.append_assoc]⟩

mutual
/-- Visiting one node preserves the invariant, restores the stack and
only appends nodes. -/
theorem visitNode_inv (cfg : InterrogateConfig) (fname : PyStr) :
    ∀ (t : PyAst) (st : VisitState), visitInv st →
      visitInv (visitNode cfg fname st t) ∧
      (visitNode cfg fname st t).stack = st.stack ∧
      ∃ ext, (visitNode cfg fname st t).nodes = st.nodes ++ ext
  | .module doc body, st, h => by
      have hrec := visitRecord_inv cfg fname body (pyBasename fname) doc none
        "Module" st h (fun st' h' => visitList_inv cfg fname body st' h')
      exact ⟨hrec.1, hrec.2.1, hrec.2.2⟩
  | .classDef nm doc decs ln body, st, h => by
      simp only [visitNode]
      split
      · exact ⟨h, rfl, [], by simp⟩
      · have hrec := visitRecord_inv cfg fname body nm doc (some ln)
          "ClassDef" st h (fun st' h' => visitList_inv cfg fname body st' h')
        exact ⟨hrec.1, hrec.2.1, hrec.2.2⟩
  | .functionDef nm doc decs ln body, st, h => by
      simp only [visitNode]
      split
      · exact ⟨h, rfl, [], by simp⟩
      · have hrec := visitRecord_inv cfg fname body nm doc (some ln)
          "FunctionDef" st h (fun st' h' => visitList_inv cfg fname body st' h')
        exact ⟨hrec.1, hrec.2.1, hrec.2.2⟩
  | .asyncFunctionDef nm doc decs ln body, st, h => by
      simp only [visitNode]
      split
      · exact ⟨h, rfl, [], by simp⟩
      · have hrec := visitRecord_inv cfg fname body nm doc (some ln)
          "AsyncFunctionDef" st h (fun st' h' => visitList_inv cfg fname body st' h')
        exact ⟨hrec.1, hrec.2.1, hrec.2.2⟩
  | .otherStmt children, st, h => by
      exact visitList_inv cfg fname children st h

/-- Visiting a sibling list preserves the invariant, restores the stack
and only appends nodes. -/
theorem visitList_inv (cfg : InterrogateConfig) (fname : PyStr) :
    ∀ (l : PyAstList) (st : VisitState), visitInv st →
      visitInv (visitList cfg fname st l) ∧
      (visitList cfg fname st l).stack = st.stack ∧
      ∃ ext, (visitList cfg fname st l).nodes = st.nodes ++ ext
  | .nil, st, h => ⟨h, rfl, [], by simp [visitList]⟩
  | .cons a l, st, h => by
      obtain ⟨h1, h2, x1, hx1⟩ := visitNode_inv cfg fname a st h
      obtain ⟨h3, h4, x2, hx2⟩ := visitList_inv cfg fname l (visitNode cfg fname st a) h1
      simp only [visitList]
      exact ⟨h3, h4.trans h2, x1 ++ x2, by rw [hx2, hx1, List.append_assoc]⟩
end

/-- The node invariant holds of every visitor run. -/
theorem visitTree_nodesInv (cfg : InterrogateConfig) (fname : PyStr)
    (tree : PyAst) : nodesInv (visitTree cfg fname tree).nodes :=
  ((visitNode_inv cfg fname tree ⟨[], []⟩
    ⟨fun j hj => absurd hj (List.not_mem_nil j),
     fun i n hn => absurd hn (by simp)⟩).1).2

/-- C6 (amended): a recorded node has `is_nested_func` set iff it is a
plain `FunctionDef` whose parent is a plain `FunctionDef`, and
`is_nested_cls` set iff it is a `ClassDef` whose parent is a `ClassDef`
or a plain `FunctionDef` — an `AsyncFunctionDef` on either side never
sets the flags (see `c6_counterexample_async_parent`). -/
theorem c6_amended_nesting_flags (cfg : InterrogateConfig) (fname : PyStr)
    (tree : PyAst) (i : Nat) (n : CovNode)
    (hn : (visitTree cfg fname tree).nodes[i]? = some n) :
    (n.is_nested_func = true ↔ n.node_type = "FunctionDef" ∧
      ∃ p pn, n.parent = some p ∧
        (visitTree cfg fname tree).nodes[p]? = some pn ∧
        pn.node_type = "FunctionDef") ∧
    (n.is_nested_cls = true ↔ n.node_type = "ClassDef" ∧
      ∃ p pn, n.parent = some p ∧
        (visitTree cfg fname tree).nodes[p]? = some pn ∧
        (pn.node_type = "ClassDef" ∨ pn.node_type = "FunctionDef")) := by
  have hinv := visitTree_nodesInv cfg fname tree i n hn
  unfold nodeInv at hinv
  rcases hp : n.parent with _ | p
  · rw [hp] at hinv
    obtain ⟨hf, hcls, _⟩ := hinv
    constructor
    · rw [hf]
      simp
    · rw [hcls]
      simp
  · rw [hp] at hinv
    obtain ⟨pn, hpn, _, hf, hcls, _⟩ := hinv
    constructor
    · rw [hf]
      unfold isNestedFunc
      constructor
      · intro hb
        rcases Bool.and_eq_true_iff.mp hb with ⟨h1, h2⟩
        exact ⟨by simpa using h2, p, pn, rfl, hpn, by simpa using h1⟩
      · rintro ⟨hnt, p', pn', hpeq, hpn', hpt⟩
        cases hpeq
        rw [hpn] at hpn'
        cases hpn'
        simp [hpt, hnt]
    · rw [hcls]
      unfold isNestedCls
      constructor
      · intro hb
        rcases Bool.and_eq_true_iff.mp hb with ⟨h1, h2⟩
        refine ⟨by simpa using h2, p, pn, rfl, hpn, ?_⟩
        rcases Bool.or_eq_true_iff.mp h1 with h1a | h1b
        · exact Or.inl (by simpa using h1a)
        · exact Or.inr (by simpa using h1b)
      · rintro ⟨hnt, p', pn', hpeq, hpn', hpt⟩
        cases hpeq
        rw [hpn] at hpn'
        cases hpn'
        rcases hpt with hpt | hpt <;> simp [hpt, hnt]

/-- The async-nesting scenario: an async function containing a plain
nested function. -/
def c6Tree : PyAst :=
  .module (some (pys "d"))
    (.cons
      (.asyncFunctionDef (pys "outer") (some (pys "d")) [] 1
        (.cons (.functionDef (pys "inner") (some (pys "d")) [] 2 .nil) .nil))
      .nil)

/-- The CovNode the visitor records for `inner` in `c6Tree`. -/
def c6InnerNode : CovNode :=
  { name := pys "inner", path := pys "a.py:outer.inner", level := 2,
    lineno := some 2, covered := true, node_type := "FunctionDef",
    is_nested_func := false, is_nested_cls := false, parent := some 1 }

/-- The CovNode the visitor records for `outer` in `c6Tree`. -/
def c6OuterNode : CovNode :=
  { name := pys "outer", path := pys "a.py:outer", level := 1,
    lineno := some 1, covered := true, node_type := "AsyncFunctionDef",
    is_nested_func := false, is_nested_cls := false, parent := some 0 }

/-- C6 fails as stated: `inner` is a function whose immediate parent is
an `AsyncFunctionDef`, yet `is_nested_func` is false — async parents are
not treated like plain function parents. -/
theorem c6_counterexample_async_parent :
    (((visitTree {} (pys "a.py") c6Tree).nodes.map fun n =>
        (n.node_type, n.parent, n.is_nested_func, n.is_nested_cls))
      = [("Module", none, false, false),
         ("AsyncFunctionDef", some 0, false, false),
         ("FunctionDef", some 1, false, false)]) ∧
    ¬ (∀ (i : Nat) (n : CovNode),
        (visitTree {} (pys "a.py") c6Tree).nodes[i]? = some n →
        (n.is_nested_func = true ↔ ∃ (p : Nat) (pn : CovNode),
          n.parent = some p ∧
          (visitTree {} (pys "a.py") c6Tree).nodes[p]? = some pn ∧
          (pn.node_type = "FunctionDef" ∨ pn.node_type = "AsyncFunctionDef"))) := by
  refine ⟨by decide, fun hcl => ?_⟩
  have h2 := hcl 2 c6InnerNode (by decide)
  have hflag : c6InnerNode.is_nested_func = true := by
    apply h2.mpr
    exact ⟨1, c6OuterNode, rfl, by decide, Or.inr rfl⟩
  exact absurd hflag (by decide)

/-- Witness for the amended C6, instantiated at the nested function
`inner` of the async scenario. -/
theorem c6_amended_nesting_flags_witness :
    (c6InnerNode.is_nested_func = true ↔ c6InnerNode.node_type = "FunctionDef" ∧
      ∃ p pn, c6InnerNode.parent = some p ∧
        (visitTree {} (pys "a.py") c6Tree).nodes[p]? = some pn ∧
        pn.node_type = "FunctionDef") ∧
    (c6InnerNode.is_nested_cls = true ↔ c6InnerNode.node_type = "ClassDef" ∧
      ∃ p pn, c6InnerNode.parent = some p ∧
        (visitTree {} (pys "a.py") c6Tree).nodes[p]? = some pn ∧
        (pn.node_type = "ClassDef" ∨ pn.node_type = "FunctionDef")) :=
  c6_amended_nesting_flags {} (pys "a.py") c6Tree 2 c6InnerNode (by decide)

/-- A module with one documented function, for the path scenarios. -/
def c7Tree : PyAst :=
  .module (some (pys "d"))
    (.cons (.functionDef (pys "f") (some (pys "d")) [] 1 .nil) .nil)

/-- C7 fails as stated: `.pyi` files are accepted by the interrogator,
but the visitor joins the module name and the first symbol with `.`
rather than `:` for them, because the separator choice tests
`parent_path.endswith(".py")`. -/
theorem c7_counterexample_pyi_separator :
    hasValidExt (pys "foo.pyi") = true ∧
    ((visitTree {} (pys "foo.pyi") c7Tree).nodes.map fun n => n.path)
      = [pys "foo.pyi", pys "foo.pyi.f"] ∧
    ((visitTree {} (pys "foo.pyi") c7Tree).nodes.map fun n => n.path)
      ≠ [pys "foo.pyi", (pys "foo.pyi") ++ ':' :: (pys "f")] := by
  decide

/-- C7 (amended): the module node's path is the file's basename; every
non-module node's path is its parent's path, a separator, and its own
name — where the separator is `:` exactly when the parent's path ends in
`.py` (so the module boundary of a `.py` file uses `:`, while a `.pyi`
module or any deeper scope uses `.`). -/
theorem c7_amended_path_construction (cfg : InterrogateConfig) (fname : PyStr)
    (doc : Option PyStr) (body : PyAstList) :
    (∃ n0, (visitTree cfg fname (.module doc body)).nodes[0]? = some n0 ∧
      n0.parent = none ∧ n0.node_type = "Module" ∧
      n0.name = pyBasename fname ∧ n0.path = pyBasename fname) ∧
    (∀ (i : Nat) (n : CovNode),
      (visitTree cfg fname (.module doc body)).nodes[i]? = some n →
      (n.parent = none → n.path = n.name) ∧
      (∀ p : Nat, n.parent = some p → ∃ pn,
        (visitTree cfg fname (.module doc body)).nodes[p]? = some pn ∧
        n.path = pn.path ++
          (if pyEndsWith pn.path (pys ".py") then ':' :: n.name
           else '.' :: n.name))) := by
  constructor
  · have hinv0 : visitInv (⟨[], []⟩ : VisitState) :=
      ⟨fun j hj => absurd hj (List.not_mem_nil j),
       fun i n hn => absurd hn (by simp)⟩
    obtain ⟨h1, h2, x, hx⟩ := enterNode_inv ⟨[], []⟩ (pyBasename fname) doc none "Module" hinv0
    obtain ⟨h3, h4, ext, hext⟩ := visitList_inv cfg fname body _ h1
    refine ⟨{ name := pyBasename fname, path := pyBasename fname, level := 0,
              lineno := none, covered := hasDoc doc, node_type := "Module",
              is_nested_func := false, is_nested_cls := false,
              parent := none }, ?_, rfl, rfl, rfl, rfl⟩
    show (visitList cfg fname
      (enterNode ⟨[], []⟩ (pyBasename fname) doc none "Module") body).nodes[0]? = _
    rw [hext]
    rw [show (enterNode ⟨[], []⟩ (pyBasename fname) doc none "Module").nodes
      = [_] from rfl]
    rw [List.getElem?_append_left (by simp)]
    rfl
  · intro i n hn
    have hinv := visitTree_nodesInv cfg fname (.module doc body) i n hn
    unfold nodeInv at hinv
    constructor
    · intro hp
      rw [hp] at hinv
      exact hinv.2.2
    · intro p hp
      rw [hp] at hinv
      obtain ⟨pn, hpn, _, _, _, hpath⟩ := hinv
      exact ⟨pn, hpn, hpath⟩

/-- The CovNode recorded for `f` when interrogating `s.py` / `c7Tree`. -/
def c7FNode : CovNode :=
  { name := pys "f", path := pys "s.py:f", level := 1, lineno := some 1,
    covered := true, node_type := "FunctionDef", is_nested_func := false,
    is_nested_cls := false, parent := some 0 }

/-- The CovNode recorded for the module of `s.py` / `c7Tree`. -/
def c7ModNode : CovNode :=
  { name := pys "s.py", path := pys "s.py", level := 0, lineno := none,
    covered := true, node_type := "Module", is_nested_func := false,
    is_nested_cls := false, parent := none }

/-- Witness for the amended C7: in `s.py` the function `f` gets the path
`s.py:f` — the parent path ends in `.py`, so the separator is `:`. -/
theorem c7_amended_path_construction_witness :
    ((visitTree {} (pys "s.py") c7Tree).nodes[1]?).map CovNode.path =
      some ((pys "s.py") ++ ':' :: (pys "f")) := by
  obtain ⟨pn, hpn, hpath⟩ :=
    ((c7_amended_path_construction {} (pys "s.py") (some (pys "d"))
        (.cons (.functionDef (pys "f") (some (pys "d")) [] 1 .nil) .nil)).2 1
      c7FNode (by decide)).2 0 rfl
  have h0 : (visitTree {} (pys "s.py") (PyAst.module (some (pys "d"))
      (.cons (.functionDef (pys "f") (some (pys "d")) [] 1 .nil) .nil))).nodes[0]?
      = some c7ModNode := by decide
  rw [h0] at hpn
  injection hpn with hmod
  subst hmod
  rw [if_pos (show pyEndsWith c7ModNode.path (pys ".py") = true from by decide)] at hpath
  rw [show (visitTree {} (pys "s.py") c7Tree).nodes[1]? = some c7FNode from by decide]
  rw [show ((some c7FNode).map CovNode.path) = some c7FNode.path from rfl, hpath]
  rfl
